import Mathlib

/-!
Shallow embedding of the autocomplete prefix-expansion crawler
(`script_v1.py`, `script_v2.py`, `script_v3.py`).

The three script variants share one algorithm and differ only in the
configuration constants (expansion alphabet, page cap `MAX_RESULTS`,
token-bucket capacity).  We embed the algorithm once, parameterised by a
`Config`, and instantiate it at the v1 and v3 constants where a concrete
claim needs them.

Modelling conventions:
* a queried prefix string is a `List Char` (Python string, by-value equality);
* the server is an oracle: per attempt an `Attempt` outcome (429 /
  transport error / parsed success body), per prefix a deterministic
  result list for the crawl-level model;
* the shared counters `request_counter` / `last_saved_request` and the
  `save_progress` invocations are threaded explicitly as an `ApiState`;
* the mutable sets `explored_prefixes` / `all_names` are `Finset`s, as in
  the source they are Python `set`s guarded by one lock, so the
  interleaving of workers is a sequence of atomic read-modify-write steps.
-/

/-! ### Configuration constants (script_v1.py lines 29-35, script_v3.py lines 33-39) -/

/-- `MAX_RETRIES = 5` (same in all three scripts). -/
def MAX_RETRIES : Nat := 5

/-- Checkpoint interval: the literal `100` in
`if request_counter - last_saved_request >= 100` (script_v1.py line 106). -/
def CHECKPOINT_INTERVAL : Nat := 100

/-- Per-variant constants used by the worker/main logic. -/
structure Config where
  alphabet : List Char
  maxResults : Nat
  maxPrefixLength : Nat

/-- v1: expansion alphabet `chr(97)..chr(122)` (script_v1.py line 160),
`MAX_RESULTS = 10`, `MAX_PREFIX_LENGTH = 10`. -/
def cfgV1 : Config :=
  { alphabet := (List.range 26).map (fun i => Char.ofNat (97 + i))
    maxResults := 10
    maxPrefixLength := 10 }

/-- v3: `allowed_chars = "abcdefghijklmnopqrstuvwxyz0123456789+- ."`
(script_v3.py line 152), `MAX_RESULTS = 15`, `MAX_PREFIX_LENGTH = 10`. -/
def cfgV3 : Config :=
  { alphabet := (List.range 26).map (fun i => Char.ofNat (97 + i)) ++
      ['0', '1', '2', '3', '4', '5', '6', '7', '8', '9', '+', '-', ' ', '.']
    maxResults := 15
    maxPrefixLength := 10 }

/-! ### query_api (script_v1.py lines 92-131; identical structure in v2/v3)

One loop iteration = one attempt.  Each iteration first consumes a rate
token (irrelevant to the claims below), then under `data_lock` increments
`request_counter` and possibly checkpoints, then issues the HTTP request.
The outcome of the request at global attempt index `k` is supplied by an
environment `env k`. -/

/-- Outcome of one HTTP attempt, as discriminated by `query_api`:
a 429 status, any other raised exception (timeout, non-2xx via
`raise_for_status`, JSON error), or a parsed `results` list. -/
inductive Attempt where
  | rateLimited : Attempt
  | err : Attempt
  | success : List (List Char) → Attempt
deriving DecidableEq

/-- True exactly on the `success` constructor. -/
def Attempt.isSuccess : Attempt → Bool
  | .success _ => true
  | _ => false

/-- The shared counter state mutated by `query_api` under `data_lock`,
plus the trace of `save_progress` invocations (recorded as the value of
`request_counter` at the moment of each save). -/
structure ApiState where
  requestCounter : Nat
  lastSaved : Nat
  saves : List Nat
deriving DecidableEq

/-- script_v1.py lines 103-108: under `data_lock`, increment
`request_counter`; if `request_counter - last_saved_request >= 100`
(Python integer subtraction, hence the cast to `ℤ`), set
`last_saved_request = request_counter` and call `save_progress()`. -/
def tick (s : ApiState) : ApiState :=
  if (CHECKPOINT_INTERVAL : ℤ) ≤ ((s.requestCounter + 1 : Nat) : ℤ) - (s.lastSaved : ℤ) then
    { requestCounter := s.requestCounter + 1, lastSaved := s.requestCounter + 1
      saves := s.saves ++ [s.requestCounter + 1] }
  else
    { requestCounter := s.requestCounter + 1, lastSaved := s.lastSaved
      saves := s.saves }

/-- The retry loop of `query_api` (script_v1.py lines 98-131).
`r` is the Python `retries` variable, `fuel` keeps `r + fuel =
MAX_RETRIES + 1` so that `fuel = 0` is exactly the exit of the `while
retries <= MAX_RETRIES` loop; `stop k` is the value of
`stop_event.is_set()` observed at the top of iteration `k`.  Returns the
result list, the final counter state, and the number of attempts made
(iterations that incremented `request_counter`). -/
def queryApiGo (env : Nat → Attempt) (stop : Nat → Bool) :
    Nat → Nat → ApiState → List (List Char) × ApiState × Nat
  | _, 0, s => ([], s, 0)
  | r, fuel + 1, s =>
    if stop r then ([], s, 0)
    else
      let s1 := tick s
      match env r with
      | .rateLimited =>
        let t := queryApiGo env stop (r + 1) fuel s1
        (t.1, t.2.1, t.2.2 + 1)
      | .err =>
        if MAX_RETRIES ≤ r then ([], s1, 1)
        else
          let t := queryApiGo env stop (r + 1) fuel s1
          (t.1, t.2.1, t.2.2 + 1)
      | .success ws => (ws, s1, 1)

/-- `query_api(prefix)`: run the retry loop from `retries = 0`.
The queried string itself does not influence the control flow; the
server's behaviour is abstracted into `env`. -/
def query_api (env : Nat → Attempt) (stop : Nat → Bool) (s : ApiState) :
    List (List Char) × ApiState × Nat :=
  queryApiGo env stop 0 (MAX_RETRIES + 1) s

example : (query_api (fun _ => .rateLimited) (fun _ => false)
    ⟨0, 0, []⟩).2.2 = 6 := by decide

example : (query_api (fun _ => .err) (fun _ => false)
    ⟨0, 0, []⟩).2.2 = 6 := by decide

example : (query_api (fun k => if k = 2 then .success [['a']] else .rateLimited)
    (fun _ => false) ⟨0, 0, []⟩).1 = [['a']] := by decide

example : (query_api (fun _ => .rateLimited) (fun _ => false)
    ⟨99, 0, []⟩).2.1.saves = [100] := by decide

/-! ### markExplored (script_v1.py lines 141-146)

Under `data_lock` the worker checks `prefix in explored_prefixes` and, when
absent, performs `explored_prefixes.add(prefix)`.  Because the whole
check-and-add runs under one lock, concurrent callers serialize; we model
one serialized call and fold it over call sequences. -/

/-- The check-and-add on `explored_prefixes`: returns whether the string
was newly marked, together with the updated set. -/
def markExplored (explored : Finset (List Char)) (p : List Char) :
    Bool × Finset (List Char) :=
  if p ∈ explored then (false, explored) else (true, insert p explored)

/-- A serialized sequence of `markExplored` calls (the order the lock
grants them); returns the list of boolean results and the final set. -/
def runMarks (explored : Finset (List Char)) :
    List (List Char) → List Bool × Finset (List Char)
  | [] => ([], explored)
  | p :: ps =>
    ((markExplored explored p).1 :: (runMarks (markExplored explored p).2 ps).1,
     (runMarks (markExplored explored p).2 ps).2)

/-! ### The worker step and the crawl (script_v1.py lines 133-167, 171-173)

A single lock guards every mutation of `explored_prefixes`, `all_names`
and the queue contents, so a run of the worker pool is a sequence of
atomic worker iterations; `step` is one such iteration on the head of the
FIFO queue.  `oracle p` is the suggestion list the (deterministic mock)
server returns for `p` — the success path of `query_api`; `requests`
counts those queries. -/

/-- The cross-thread run state: FIFO `prefix_queue`, `explored_prefixes`,
`all_names`, and the number of API queries issued. -/
structure CrawlState where
  queue : List (List Char)
  explored : Finset (List Char)
  allNames : Finset (List Char)
  requests : Nat
deriving DecidableEq

/-- script_v1.py lines 157-164: when `len(suggestions) >= MAX_RESULTS and
len(prefix) < MAX_PREFIX_LENGTH`, build `prefix + c` for each alphabet
character and enqueue those not in `explored_prefixes`. -/
def expandChildren (cfg : Config) (explored : Finset (List Char))
    (p : List Char) (suggestions : List (List Char)) : List (List Char) :=
  if cfg.maxResults ≤ suggestions.length ∧ p.length < cfg.maxPrefixLength then
    (cfg.alphabet.map (fun c => p ++ [c])).filter (fun np => np ∉ explored)
  else []

/-- One worker iteration (script_v1.py lines 135-167): pop the queue
head; skip it if already explored or longer than `MAX_PREFIX_LENGTH`;
otherwise mark it explored, query, merge the suggestions into
`all_names`, and enqueue the expansion children.  On an empty queue the
worker blocks, so the state is unchanged. -/
def step (cfg : Config) (oracle : List Char → List (List Char))
    (s : CrawlState) : CrawlState :=
  match s.queue with
  | [] => s
  | p :: rest =>
    if p ∈ s.explored ∨ cfg.maxPrefixLength < p.length then
      { s with queue := rest }
    else
      let explored1 := insert p s.explored
      let suggestions := oracle p
      { queue := rest ++ expandChildren cfg explored1 p suggestions
        explored := explored1
        allNames := s.allNames ∪ suggestions.toFinset
        requests := s.requests + 1 }

/-- Iterate the worker step `n` times. -/
def stepN (cfg : Config) (oracle : List Char → List (List Char)) :
    Nat → CrawlState → CrawlState
  | 0, s => s
  | n + 1, s => stepN cfg oracle n (step cfg oracle s)

/-- script_v1.py lines 171-173 (v3: lines 197-199): the initial state,
seeded with one single-character string per seed character. -/
def initialState (seeds : List Char) : CrawlState :=
  { queue := seeds.map (fun c => [c])
    explored := ∅
    allNames := ∅
    requests := 0 }

/-! ### The §8 test scenario (spec.md line 83)

Alphabet = lowercase letters, page cap 10, maximum length 3; the mock
server returns 10 distinct words for `"a"`, 3 distinct words for each
two-letter string starting with `a`, nothing otherwise. -/

/-- The 26 lowercase letters (the v1 alphabet and the v1 seed set). -/
def lowercase : List Char := (List.range 26).map (fun i => Char.ofNat (97 + i))

/-- Scenario configuration: `pageResultCap = 10`, `L = 3`. -/
def cfgScenario : Config :=
  { alphabet := lowercase, maxResults := 10, maxPrefixLength := 3 }

/-- The scenario's mock server. The ten words for `"a"` are `a0..a9`;
the three words for a two-letter `p` are `p0, p1, p2` — all 88 distinct. -/
def mockOracle (p : List Char) : List (List Char) :=
  if p = ['a'] then (List.range 10).map (fun i => ['a', Char.ofNat (48 + i)])
  else if p.length = 2 ∧ p.headI = 'a' then [p ++ ['0'], p ++ ['1'], p ++ ['2']]
  else []

/-- The complete scenario run: seed with all 26 letters (as `main` does)
and iterate the worker until the queue has drained (52 pops suffice). -/
def scenarioRun : CrawlState := stepN cfgScenario mockOracle 52 (initialState lowercase)

/-! ### The finite search space -/

/-- All character lists of length `n` over `alpha`. -/
def wordsOfLen (alpha : List Char) : Nat → Finset (List Char)
  | 0 => {[]}
  | n + 1 =>
    (wordsOfLen alpha n).biUnion (fun p => alpha.toFinset.image (fun c => p ++ [c]))

/-- All candidate queried strings: length `1..L` over the alphabet. -/
def validStrings (alpha : List Char) (L : Nat) : Finset (List Char) :=
  (Finset.range L).biUnion (fun k => wordsOfLen alpha (k + 1))

/-! ### TokenBucket (script_v1.py lines 38-62)

`time.monotonic()` values and durations are modelled as rationals.  One
invocation of `consume` is a sequence of elementary steps, each reading
the clock once; the step either grants a token (`return True`) or
computes a sleep duration and recurses after sleeping. -/

/-- The token bucket's fields (`capacity`, `tokens`, `refill_period`,
`last_refill`). `tokens` is only ever set to `capacity` or decremented
when positive, so `Nat` is faithful. -/
structure Bucket where
  capacity : Nat
  tokens : Nat
  refillPeriod : ℚ
  lastRefill : ℚ
deriving DecidableEq

/-- Result of one elementary `consume` step: a granted token, or a
computed sleep duration before retrying. -/
inductive ConsumeStep where
  | granted : Bucket → ConsumeStep
  | sleeping : ℚ → Bucket → ConsumeStep
deriving DecidableEq

/-- One body of `TokenBucket.consume` (script_v1.py lines 48-61): read
the clock, refill on an elapsed period, then either take a token or
compute `sleep_time = refill_period - elapsed + 0.1`. -/
def consumeStep (b : Bucket) (now : ℚ) : ConsumeStep :=
  let elapsed := now - b.lastRefill
  let b1 := if b.refillPeriod < elapsed then
    { b with tokens := b.capacity, lastRefill := now } else b
  if 0 < b1.tokens then .granted { b1 with tokens := b1.tokens - 1 }
  else .sleeping (b.refillPeriod - elapsed + 1/10) b1

/-- The full recursion of `consume` (line 62: `return self.consume()`),
driven by the list of clock readings of the successive bodies; `none`
when the readings run out mid-recursion.  On success it returns the
Python return value (the literal `True` of line 57), the final bucket
and the list of sleep durations performed. -/
def consume (b : Bucket) : List ℚ → Option (Bool × Bucket × List ℚ)
  | [] => none
  | now :: rest =>
    match consumeStep b now with
    | .granted b1 => some (true, b1, [])
    | .sleeping t b1 =>
      (consume b1 rest).map (fun r => (r.1, r.2.1, t :: r.2.2))

example : consume ⟨100, 100, 60, 0⟩ [1] = some (true, ⟨100, 99, 60, 0⟩, []) := by
  norm_num [consume, consumeStep]

example : consume ⟨100, 0, 60, 5⟩ [10, 70] =
    some (true, ⟨100, 99, 60, 70⟩, [55 + 1/10]) := by
  norm_num [consume, consumeStep]

/-! ## Helper lemmas: counters -/

lemma tick_requestCounter (s : ApiState) :
    (tick s).requestCounter = s.requestCounter + 1 := by
  unfold tick; split <;> rfl

lemma tick_lastSaved_mono (s : ApiState) : s.lastSaved ≤ (tick s).lastSaved := by
  unfold tick
  split
  case isTrue h => simp only []; omega
  case isFalse h => exact le_refl _

lemma tick_lastSaved_le (s : ApiState)
    (h : s.lastSaved ≤ s.requestCounter) :
    (tick s).lastSaved ≤ (tick s).requestCounter := by
  unfold tick
  split
  case isTrue hc => exact le_refl _
  case isFalse hc => simp only []; omega

lemma queryApiGo_attempts_le (env : Nat → Attempt) (stop : Nat → Bool) :
    ∀ fuel r s, (queryApiGo env stop r fuel s).2.2 ≤ fuel := by
  intro fuel
  induction fuel with
  | zero => intro r s; simp [queryApiGo]
  | succ fuel ih =>
    intro r s
    cases hstop : stop r with
    | true => simp [queryApiGo, hstop]
    | false =>
      cases henv : env r with
      | rateLimited =>
        have := ih (r + 1) (tick s)
        simp [queryApiGo, hstop, henv]; omega
      | err =>
        by_cases hr : MAX_RETRIES ≤ r
        · simp [queryApiGo, hstop, henv, hr]
        · have := ih (r + 1) (tick s)
          simp [queryApiGo, hstop, henv, hr]; omega
      | success ws => simp [queryApiGo, hstop, henv]

lemma queryApiGo_requestCounter (env : Nat → Attempt) (stop : Nat → Bool) :
    ∀ fuel r s, (queryApiGo env stop r fuel s).2.1.requestCounter =
      s.requestCounter + (queryApiGo env stop r fuel s).2.2 := by
  intro fuel
  induction fuel with
  | zero => intro r s; simp [queryApiGo]
  | succ fuel ih =>
    intro r s
    cases hstop : stop r with
    | true => simp [queryApiGo, hstop]
    | false =>
      cases henv : env r with
      | rateLimited =>
        have h1 := ih (r + 1) (tick s)
        have h2 := tick_requestCounter s
        simp [queryApiGo, hstop, henv, h1, h2]; omega
      | err =>
        by_cases hr : MAX_RETRIES ≤ r
        · simp [queryApiGo, hstop, henv, hr, tick_requestCounter]
        · have h1 := ih (r + 1) (tick s)
          have h2 := tick_requestCounter s
          simp [queryApiGo, hstop, henv, hr, h1, h2]; omega
      | success ws => simp [queryApiGo, hstop, henv, tick_requestCounter]

lemma queryApiGo_lastSaved_mono (env : Nat → Attempt) (stop : Nat → Bool) :
    ∀ fuel r s, s.lastSaved ≤ (queryApiGo env stop r fuel s).2.1.lastSaved := by
  intro fuel
  induction fuel with
  | zero => intro r s; simp [queryApiGo]
  | succ fuel ih =>
    intro r s
    cases hstop : stop r with
    | true => simp [queryApiGo, hstop]
    | false =>
      cases henv : env r with
      | rateLimited =>
        have h1 := tick_lastSaved_mono s
        have h2 := ih (r + 1) (tick s)
        simp only [queryApiGo, hstop, henv]
        simpa using le_trans h1 h2
      | err =>
        by_cases hr : MAX_RETRIES ≤ r
        · simp only [queryApiGo, hstop, henv]
          simpa [hr] using tick_lastSaved_mono s
        · have h1 := tick_lastSaved_mono s
          have h2 := ih (r + 1) (tick s)
          simp only [queryApiGo, hstop, henv]
          simpa [hr] using le_trans h1 h2
      | success ws =>
        simp only [queryApiGo, hstop, henv]
        simpa using tick_lastSaved_mono s

lemma queryApiGo_lastSaved_le (env : Nat → Attempt) (stop : Nat → Bool) :
    ∀ fuel r s, s.lastSaved ≤ s.requestCounter →
      (queryApiGo env stop r fuel s).2.1.lastSaved ≤
        (queryApiGo env stop r fuel s).2.1.requestCounter := by
  intro fuel
  induction fuel with
  | zero => intro r s h; simpa [queryApiGo] using h
  | succ fuel ih =>
    intro r s h
    cases hstop : stop r with
    | true => simpa [queryApiGo, hstop] using h
    | false =>
      cases henv : env r with
      | rateLimited =>
        have := ih (r + 1) (tick s) (tick_lastSaved_le s h)
        simp only [queryApiGo, hstop, henv]
        simpa using this
      | err =>
        by_cases hr : MAX_RETRIES ≤ r
        · simp only [queryApiGo, hstop, henv]
          simpa [hr] using tick_lastSaved_le s h
        · have := ih (r + 1) (tick s) (tick_lastSaved_le s h)
          simp only [queryApiGo, hstop, henv]
          simpa [hr] using this
      | success ws =>
        simp only [queryApiGo, hstop, henv]
        simpa using tick_lastSaved_le s h

lemma queryApiGo_no_success (env : Nat → Attempt) (stop : Nat → Bool)
    (henv : ∀ k, (env k).isSuccess = false) :
    ∀ fuel r s, (queryApiGo env stop r fuel s).1 = [] := by
  intro fuel
  induction fuel with
  | zero => intro r s; simp [queryApiGo]
  | succ fuel ih =>
    intro r s
    cases hstop : stop r with
    | true => simp [queryApiGo, hstop]
    | false =>
      cases henvr : env r with
      | rateLimited =>
        have := ih (r + 1) (tick s)
        simp [queryApiGo, hstop, henvr, this]
      | err =>
        by_cases hr : MAX_RETRIES ≤ r
        · simp [queryApiGo, hstop, henvr, hr]
        · have := ih (r + 1) (tick s)
          simp [queryApiGo, hstop, henvr, hr, this]
      | success ws =>
        have hk := henv r
        rw [henvr] at hk
        simp [Attempt.isSuccess] at hk

/-! ## Claim C2 -/

/-- C2: `query_api` is total (it returns a `List`, never an exception),
makes at most `MAX_RETRIES + 1` attempts, and returns an empty list both
when no attempt succeeds (retry budget exhausted) and when the run has
been cancelled before the first attempt. -/
theorem query_api_never_fails (env : Nat → Attempt) (stop : Nat → Bool) (s : ApiState) :
    (query_api env stop s).2.2 ≤ MAX_RETRIES + 1 ∧
    ((∀ k, (env k).isSuccess = false) → (query_api env stop s).1 = []) ∧
    (stop 0 = true → query_api env stop s = ([], s, 0)) := by
  refine ⟨queryApiGo_attempts_le env stop _ 0 s,
    fun h => queryApiGo_no_success env stop h _ 0 s, fun h => ?_⟩
  simp [query_api, queryApiGo, h]

/-- Witness for C2: the all-429 environment makes six attempts and ends
empty; a cancelled run returns immediately. -/
theorem query_api_never_fails_witness :
    (query_api (fun _ => Attempt.rateLimited) (fun _ => false) ⟨0, 0, []⟩).2.2 ≤
        MAX_RETRIES + 1 ∧
    (query_api (fun _ => Attempt.rateLimited) (fun _ => false) ⟨0, 0, []⟩).1 = [] ∧
    query_api (fun _ => Attempt.rateLimited) (fun _ => true) ⟨0, 0, []⟩ = ([], ⟨0, 0, []⟩, 0) :=
  ⟨(query_api_never_fails (fun _ => Attempt.rateLimited) (fun _ => false) ⟨0, 0, []⟩).1,
   (query_api_never_fails (fun _ => Attempt.rateLimited) (fun _ => false) ⟨0, 0, []⟩).2.1
     (fun _ => rfl),
   (query_api_never_fails (fun _ => Attempt.rateLimited) (fun _ => true) ⟨0, 0, []⟩).2.2 rfl⟩

/-! ## Claim C9 -/

/-- C9: `request_counter` is incremented exactly once per attempt —
the final counter is the initial counter plus the number of attempts,
rate-limited and failed ones included — and both counters are
monotonically non-decreasing with `last_saved_request ≤ request_counter`
preserved through every attempt. -/
theorem request_counter_per_attempt (env : Nat → Attempt) (stop : Nat → Bool)
    (s : ApiState) (h : s.lastSaved ≤ s.requestCounter) :
    (tick s).requestCounter = s.requestCounter + 1 ∧
    (query_api env stop s).2.1.requestCounter =
      s.requestCounter + (query_api env stop s).2.2 ∧
    s.requestCounter ≤ (query_api env stop s).2.1.requestCounter ∧
    s.lastSaved ≤ (query_api env stop s).2.1.lastSaved ∧
    (query_api env stop s).2.1.lastSaved ≤ (query_api env stop s).2.1.requestCounter := by
  refine ⟨tick_requestCounter s, queryApiGo_requestCounter env stop _ 0 s, ?_,
    queryApiGo_lastSaved_mono env stop _ 0 s, queryApiGo_lastSaved_le env stop _ 0 s h⟩
  have := queryApiGo_requestCounter env stop (MAX_RETRIES + 1) 0 s
  simp only [query_api]
  omega

/-- Witness for C9: an all-429 run from counter 99 ends at counter 105
after 6 attempts, with `last_saved_request` caught up to 100. -/
theorem request_counter_per_attempt_witness :
    (query_api (fun _ => Attempt.rateLimited) (fun _ => false) ⟨99, 0, []⟩).2.1.requestCounter =
      99 + (query_api (fun _ => Attempt.rateLimited) (fun _ => false) ⟨99, 0, []⟩).2.2 ∧
    (query_api (fun _ => Attempt.rateLimited) (fun _ => false) ⟨99, 0, []⟩).2.1.lastSaved ≤
      (query_api (fun _ => Attempt.rateLimited) (fun _ => false) ⟨99, 0, []⟩).2.1.requestCounter :=
  ⟨(request_counter_per_attempt (fun _ => Attempt.rateLimited) (fun _ => false) ⟨99, 0, []⟩
      (by decide)).2.1,
   (request_counter_per_attempt (fun _ => Attempt.rateLimited) (fun _ => false) ⟨99, 0, []⟩
      (by decide)).2.2.2.2⟩

/-! ## Claim C5 -/

/-- C5 counterexample: a `query_api` run whose six attempts are all
rate-limited — so its result list is empty and nothing is ever merged
into the result store — still invokes `save_progress` (at counter 100).
The checkpoint is coupled to the per-attempt counter increment, not to
successful merges. -/
theorem checkpoint_fires_without_merge :
    query_api (fun _ => Attempt.rateLimited) (fun _ => false) ⟨99, 0, []⟩ =
      ([], ⟨105, 100, [100]⟩, 6) := by decide

/-- C5 amended: at the start of every attempt, right after incrementing
`request_counter` and regardless of the attempt's outcome,
`save_progress` is invoked exactly when `request_counter −
last_saved_request ≥ 100`, and `last_saved_request` is then set to the
current `request_counter`. -/
theorem checkpoint_trigger (s : ApiState) :
    ((CHECKPOINT_INTERVAL : ℤ) ≤ ((s.requestCounter + 1 : Nat) : ℤ) - (s.lastSaved : ℤ) →
      (tick s).saves = s.saves ++ [s.requestCounter + 1] ∧
      (tick s).lastSaved = s.requestCounter + 1) ∧
    (¬ (CHECKPOINT_INTERVAL : ℤ) ≤ ((s.requestCounter + 1 : Nat) : ℤ) - (s.lastSaved : ℤ) →
      (tick s).saves = s.saves ∧ (tick s).lastSaved = s.lastSaved) := by
  refine ⟨fun h => ?_, fun h => ?_⟩ <;> unfold tick
  · rw [if_pos h]; exact ⟨rfl, rfl⟩
  · rw [if_neg h]; exact ⟨rfl, rfl⟩

/-- Witness for C5: at counter 99 the 100th increment saves and updates
`last_saved_request`; at counter 0 the first increment does not. -/
theorem checkpoint_trigger_witness :
    (tick ⟨99, 0, []⟩).saves = [] ++ [100] ∧ (tick ⟨99, 0, []⟩).lastSaved = 100 ∧
    (tick ⟨0, 0, []⟩).saves = [] :=
  ⟨((checkpoint_trigger ⟨99, 0, []⟩).1 (by decide)).1,
   ((checkpoint_trigger ⟨99, 0, []⟩).1 (by decide)).2,
   ((checkpoint_trigger ⟨0, 0, []⟩).2 (by decide)).1⟩

/-! ## Claim C6 -/

/-- An environment whose first attempt succeeds with eleven distinct
words — one more than the v1 page cap. -/
def envEleven : Nat → Attempt := fun _ =>
  .success ((List.range 11).map (fun i => ['w', Char.ofNat (48 + i)]))

/-- C6 counterexample: `query_api` applies no client-side cap — on a
server response with eleven words it returns all eleven, exceeding
`MAX_RESULTS = 10`. -/
theorem success_exceeds_cap :
    (query_api envEleven (fun _ => false) ⟨0, 0, []⟩).1.length = 11 ∧
    cfgV1.maxResults = 10 := by decide

/-- C6 amended: on a successful attempt `query_api` returns the parsed
result list unchanged (no truncation); the returned list is within the
page cap exactly when the server's response is. -/
theorem query_api_success_passthrough (env : Nat → Attempt) (stop : Nat → Bool)
    (s : ApiState) (r fuel : Nat) (ws : List (List Char))
    (hstop : stop r = false) (henv : env r = .success ws) :
    queryApiGo env stop r (fuel + 1) s = (ws, tick s, 1) := by
  simp [queryApiGo, hstop, henv]

/-- Witness for C6: a first-attempt success with two words returns
exactly those two words. -/
theorem query_api_success_passthrough_witness :
    queryApiGo (fun _ => Attempt.success [['a'], ['b']]) (fun _ => false) 0
      (MAX_RETRIES + 1) ⟨0, 0, []⟩ = ([['a'], ['b']], tick ⟨0, 0, []⟩, 1) :=
  query_api_success_passthrough (fun _ => Attempt.success [['a'], ['b']])
    (fun _ => false) ⟨0, 0, []⟩ 0 MAX_RETRIES [['a'], ['b']] rfl rfl

/-! ## Claim C4 -/

lemma runMarks_stuck (p : List Char) :
    ∀ (n : Nat) (e : Finset (List Char)), p ∈ e →
      (runMarks e (List.replicate n p)).1.count true = 0 ∧
      (runMarks e (List.replicate n p)).2 = e := by
  intro n
  induction n with
  | zero => intro e h; simp [runMarks]
  | succ n ih =>
    intro e h
    have hm : markExplored e p = (false, e) := by simp [markExplored, h]
    simp [List.replicate_succ, runMarks, hm, (ih e h).1, (ih e h).2]

/-- C4: the check-and-add into `explored_prefixes` reports a string as
newly marked on exactly the first call and as already explored on every
later call — any serialized sequence of `n` calls on a fresh string
yields exactly one `true` — and the explored set only ever grows, so a
string is queried at most once per run. -/
theorem markExplored_idempotent (e : Finset (List Char)) (p : List Char) (n : Nat)
    (hfresh : p ∉ e) (hn : 0 < n) :
    (markExplored e p).1 = true ∧
    p ∈ (markExplored e p).2 ∧
    e ⊆ (markExplored e p).2 ∧
    (∀ e2, p ∈ e2 → (markExplored e2 p).1 = false ∧ (markExplored e2 p).2 = e2) ∧
    (runMarks e (List.replicate n p)).1.count true = 1 ∧
    e ⊆ (runMarks e (List.replicate n p)).2 := by
  obtain ⟨m, rfl⟩ : ∃ m, n = m + 1 := ⟨n - 1, by omega⟩
  have hm : markExplored e p = (true, insert p e) := by simp [markExplored, hfresh]
  have hstuck := runMarks_stuck p m (insert p e) (Finset.mem_insert_self p e)
  refine ⟨by simp [hm], by simp [hm], by simp [hm, Finset.subset_insert],
    fun e2 h2 => by simp [markExplored, h2], ?_, ?_⟩
  · simp [List.replicate_succ, runMarks, hm, hstuck.1]
  · simp only [List.replicate_succ, runMarks, hm, hstuck.2]
    exact Finset.subset_insert p e

/-- Witness for C4: three serialized calls on a fresh string yield
exactly one `true`, and the first call marks it. -/
theorem markExplored_idempotent_witness :
    (markExplored ∅ ['a']).1 = true ∧
    (runMarks ∅ (List.replicate 3 ['a'])).1.count true = 1 :=
  ⟨(markExplored_idempotent ∅ ['a'] 3 (by decide) (by decide)).1,
   (markExplored_idempotent ∅ ['a'] 3 (by decide) (by decide)).2.2.2.2.1⟩

/-! ## Worker-step shape lemmas -/

lemma step_queue_nil (cfg : Config) (oracle : List Char → List (List Char))
    (s : CrawlState) (h : s.queue = []) : step cfg oracle s = s := by
  unfold step; rw [h]

lemma step_queue_cons_skip (cfg : Config) (oracle : List Char → List (List Char))
    (s : CrawlState) (p : List Char) (rest : List (List Char))
    (h : s.queue = p :: rest)
    (hc : p ∈ s.explored ∨ cfg.maxPrefixLength < p.length) :
    step cfg oracle s = { s with queue := rest } := by
  unfold step; rw [h]; dsimp only; rw [if_pos hc]

lemma step_queue_cons_go (cfg : Config) (oracle : List Char → List (List Char))
    (s : CrawlState) (p : List Char) (rest : List (List Char))
    (h : s.queue = p :: rest)
    (hc : ¬ (p ∈ s.explored ∨ cfg.maxPrefixLength < p.length)) :
    step cfg oracle s =
      { queue := rest ++ expandChildren cfg (insert p s.explored) p (oracle p)
        explored := insert p s.explored
        allNames := s.allNames ∪ (oracle p).toFinset
        requests := s.requests + 1 } := by
  unfold step; rw [h]; dsimp only; rw [if_neg hc]

lemma mem_expandChildren (cfg : Config) (explored : Finset (List Char))
    (p : List Char) (sug : List (List Char)) (q : List Char)
    (h : q ∈ expandChildren cfg explored p sug) :
    (∃ c ∈ cfg.alphabet, q = p ++ [c]) ∧ q ∉ explored ∧
      cfg.maxResults ≤ sug.length ∧ p.length < cfg.maxPrefixLength := by
  unfold expandChildren at h
  by_cases hc : cfg.maxResults ≤ sug.length ∧ p.length < cfg.maxPrefixLength
  · rw [if_pos hc] at h
    rw [List.mem_filter] at h
    obtain ⟨hmap, hdec⟩ := h
    obtain ⟨c, hc2, rfl⟩ := List.mem_map.1 hmap
    exact ⟨⟨c, hc2, rfl⟩, by simpa using hdec, hc.1, hc.2⟩
  · rw [if_neg hc] at h
    simp at h

lemma expandChildren_length (cfg : Config) (explored : Finset (List Char))
    (p : List Char) (sug : List (List Char)) :
    (expandChildren cfg explored p sug).length ≤ cfg.alphabet.length := by
  unfold expandChildren
  split
  · exact le_trans (List.length_filter_le _ _) (by simp)
  · simp

/-! ## Claim C1 -/

/-- An oracle answering eleven words for `"a"` — one more than the v1
page cap — and nothing else. -/
def oracleEleven (p : List Char) : List (List Char) :=
  if p = ['a'] then (List.range 11).map (fun i => ['w', Char.ofNat (48 + i)]) else []

/-- C1 counterexample: the worker's gate is `len(suggestions) >=
MAX_RESULTS`, not equality with the page cap — on an eleven-word result
(word count ≠ cap = 10) the fresh short string `"a"` still generates all
26 children. -/
theorem expansion_gate_counterexample :
    (step cfgV1 oracleEleven ⟨[['a']], ∅, ∅, 0⟩).queue.length = 26 ∧
    (oracleEleven ['a']).length ≠ cfgV1.maxResults := by decide

/-- C1 amended: a fresh in-bounds string generates children exactly when
its word count is at least (`>=`, not `==`) the page cap and its length
is strictly below `MAX_PREFIX_LENGTH`; each child `p + c` is enqueued
unless already explored, and an unsaturated result or a max-length
string enqueues nothing. -/
theorem expansion_gate (cfg : Config) (oracle : List Char → List (List Char))
    (s : CrawlState) (p : List Char) (rest : List (List Char))
    (hq : s.queue = p :: rest) (hfresh : p ∉ s.explored)
    (hlen : p.length ≤ cfg.maxPrefixLength) :
    (cfg.maxResults ≤ (oracle p).length ∧ p.length < cfg.maxPrefixLength →
      (step cfg oracle s).queue =
        rest ++ (cfg.alphabet.map (fun c => p ++ [c])).filter
          (fun np => np ∉ insert p s.explored)) ∧
    (¬ (cfg.maxResults ≤ (oracle p).length ∧ p.length < cfg.maxPrefixLength) →
      (step cfg oracle s).queue = rest) := by
  have hc : ¬ (p ∈ s.explored ∨ cfg.maxPrefixLength < p.length) := by
    push_neg
    exact ⟨hfresh, by omega⟩
  rw [step_queue_cons_go cfg oracle s p rest hq hc]
  unfold expandChildren
  constructor <;> intro h
  · rw [if_pos h]
  · rw [if_neg h]; simp

/-- Witness for C1: in the v1 configuration a fresh `"a"` with a
10-word (saturated) result enqueues its 26 children, and with a 3-word
result enqueues nothing. -/
theorem expansion_gate_witness :
    (step cfgV1 (fun _ => (List.range 10).map (fun i => ['w', Char.ofNat (48 + i)]))
      ⟨[['a']], ∅, ∅, 0⟩).queue =
      [] ++ (cfgV1.alphabet.map (fun c => ['a'] ++ [c])).filter
        (fun np => np ∉ insert ['a'] (∅ : Finset (List Char))) ∧
    (step cfgV1 (fun _ => [['w']]) ⟨[['a']], ∅, ∅, 0⟩).queue = [] :=
  ⟨(expansion_gate cfgV1 (fun _ => (List.range 10).map (fun i => ['w', Char.ofNat (48 + i)]))
      ⟨[['a']], ∅, ∅, 0⟩ ['a'] [] rfl (by decide) (by decide)).1 (by decide),
   (expansion_gate cfgV1 (fun _ => [['w']])
      ⟨[['a']], ∅, ∅, 0⟩ ['a'] [] rfl (by decide) (by decide)).2 (by decide)⟩

/-! ## Claim C8 -/

/-- Every queued string has length between 1 and `MAX_PREFIX_LENGTH`. -/
def QueueLenInv (cfg : Config) (s : CrawlState) : Prop :=
  ∀ p ∈ s.queue, 1 ≤ p.length ∧ p.length ≤ cfg.maxPrefixLength

lemma step_queueLen (cfg : Config) (oracle : List Char → List (List Char))
    (s : CrawlState) (hinv : QueueLenInv cfg s) :
    QueueLenInv cfg (step cfg oracle s) := by
  intro q hq
  rcases hqueue : s.queue with _ | ⟨p, rest⟩
  · rw [step_queue_nil cfg oracle s hqueue] at hq
    exact hinv q hq
  · by_cases hc : p ∈ s.explored ∨ cfg.maxPrefixLength < p.length
    · rw [step_queue_cons_skip cfg oracle s p rest hqueue hc] at hq
      exact hinv q (by rw [hqueue]; exact List.mem_cons_of_mem p hq)
    · rw [step_queue_cons_go cfg oracle s p rest hqueue hc] at hq
      simp only [List.mem_append] at hq
      rcases hq with hq | hq
      · exact hinv q (by rw [hqueue]; exact List.mem_cons_of_mem p hq)
      · obtain ⟨⟨c, _, rfl⟩, _, _, hplen⟩ :=
          mem_expandChildren cfg (insert p s.explored) p (oracle p) q hq
        constructor
        · simp
        · simp only [List.length_append, List.length_cons, List.length_nil]
          omega

lemma stepN_queueLen (cfg : Config) (oracle : List Char → List (List Char)) :
    ∀ (n : Nat) (s : CrawlState), QueueLenInv cfg s →
      QueueLenInv cfg (stepN cfg oracle n s) := by
  intro n
  induction n with
  | zero => intro s h; exact h
  | succ n ih => intro s h; exact ih (step cfg oracle s) (step_queueLen cfg oracle s h)

/-- C8: seeds have length exactly 1; if every queued string has length
in `1..MAX_PREFIX_LENGTH` then so does every string queued after any
number of worker iterations, and the dequeue-time discard test
`len(prefix) > MAX_PREFIX_LENGTH` is false for every queued string —
that branch fires only for already-explored strings. -/
theorem queue_length_invariant (cfg : Config) (oracle : List Char → List (List Char))
    (seeds : List Char) (s : CrawlState)
    (hinv : QueueLenInv cfg s) (hL : 1 ≤ cfg.maxPrefixLength) :
    (∀ p ∈ (initialState seeds).queue, p.length = 1) ∧
    QueueLenInv cfg (initialState seeds) ∧
    (∀ n, QueueLenInv cfg (stepN cfg oracle n s)) ∧
    (∀ p rest, s.queue = p :: rest → ¬ cfg.maxPrefixLength < p.length) := by
  refine ⟨?_, ?_, fun n => stepN_queueLen cfg oracle n s hinv, fun p rest hq => ?_⟩
  · intro p hp
    simp only [initialState, List.mem_map] at hp
    obtain ⟨c, _, rfl⟩ := hp
    rfl
  · intro p hp
    simp only [initialState, List.mem_map] at hp
    obtain ⟨c, _, rfl⟩ := hp
    exact ⟨le_refl 1, hL⟩
  · have := hinv p (by rw [hq]; exact List.mem_cons_self p rest)
    omega

/-- Witness for C8: the v1 seeded state keeps the invariant for one
iteration of an always-empty oracle, and the head seed passes the
length test. -/
theorem queue_length_invariant_witness :
    (∀ p ∈ (initialState ['a', 'b']).queue, p.length = 1) ∧
    (∀ p rest, (initialState ['a', 'b']).queue = p :: rest →
      ¬ cfgV1.maxPrefixLength < p.length) :=
  ⟨(queue_length_invariant cfgV1 (fun _ => []) ['a', 'b'] (initialState ['a', 'b'])
      (by unfold QueueLenInv; decide) (by decide)).1,
   (queue_length_invariant cfgV1 (fun _ => []) ['a', 'b'] (initialState ['a', 'b'])
      (by unfold QueueLenInv; decide) (by decide)).2.2.2⟩

/-! ## Claim C3 -/

lemma mem_wordsOfLen (alpha : List Char) :
    ∀ (n : Nat) (p : List Char),
      p ∈ wordsOfLen alpha n ↔ p.length = n ∧ ∀ c ∈ p, c ∈ alpha := by
  intro n
  induction n with
  | zero =>
    intro p
    simp only [wordsOfLen, Finset.mem_singleton]
    constructor
    · rintro rfl; simp
    · rintro ⟨hlen, _⟩; exact List.length_eq_zero.1 hlen
  | succ n ih =>
    intro p
    simp only [wordsOfLen, Finset.mem_biUnion, Finset.mem_image, List.mem_toFinset]
    constructor
    · rintro ⟨q, hq, c, hc, rfl⟩
      obtain ⟨hlen, hchars⟩ := (ih q).1 hq
      refine ⟨by simp [hlen], ?_⟩
      intro d hd
      rcases List.mem_append.1 hd with hd | hd
      · exact hchars d hd
      · rw [List.mem_singleton.1 hd]; exact hc
    · rintro ⟨hlen, hchars⟩
      have hne : p ≠ [] := by
        intro h; rw [h] at hlen; simp at hlen
      refine ⟨p.dropLast, (ih p.dropLast).2 ⟨by simp [hlen], ?_⟩,
        p.getLast hne, hchars _ (List.getLast_mem hne),
        List.dropLast_append_getLast hne⟩
      intro c hc
      exact hchars c (List.dropLast_subset p hc)

lemma card_wordsOfLen (alpha : List Char) :
    ∀ n, (wordsOfLen alpha n).card ≤ alpha.length ^ n := by
  intro n
  induction n with
  | zero => simp [wordsOfLen]
  | succ n ih =>
    calc (wordsOfLen alpha (n + 1)).card
        ≤ ∑ q in wordsOfLen alpha n, (alpha.toFinset.image (fun c => q ++ [c])).card :=
          Finset.card_biUnion_le
      _ ≤ ∑ _q in wordsOfLen alpha n, alpha.length := by
          apply Finset.sum_le_sum
          intro q _
          exact le_trans Finset.card_image_le (List.toFinset_card_le alpha)
      _ = (wordsOfLen alpha n).card * alpha.length := by
          simp [Finset.sum_const, Nat.smul_one_eq_cast]
      _ ≤ alpha.length ^ n * alpha.length := Nat.mul_le_mul_right _ ih
      _ = alpha.length ^ (n + 1) := by ring

lemma card_validStrings (alpha : List Char) (L : Nat) :
    (validStrings alpha L).card ≤ ∑ k in Finset.range L, alpha.length ^ (k + 1) := by
  refine le_trans Finset.card_biUnion_le (Finset.sum_le_sum ?_)
  intro k _
  exact card_wordsOfLen alpha (k + 1)

lemma mem_validStrings (alpha : List Char) (L : Nat) (p : List Char) :
    p ∈ validStrings alpha L ↔
      1 ≤ p.length ∧ p.length ≤ L ∧ ∀ c ∈ p, c ∈ alpha := by
  simp only [validStrings, Finset.mem_biUnion, Finset.mem_range, mem_wordsOfLen]
  constructor
  · rintro ⟨k, hk, hlen, hchars⟩
    exact ⟨by omega, by omega, hchars⟩
  · rintro ⟨h1, h2, hchars⟩
    exact ⟨p.length - 1, by omega, by omega, hchars⟩

/-- The crawl invariant: every queued string and every explored string
lies in the finite search space. -/
def CrawlInv (cfg : Config) (s : CrawlState) : Prop :=
  (∀ p ∈ s.queue, p ∈ validStrings cfg.alphabet cfg.maxPrefixLength) ∧
  s.explored ⊆ validStrings cfg.alphabet cfg.maxPrefixLength

lemma step_crawlInv (cfg : Config) (oracle : List Char → List (List Char))
    (s : CrawlState) (h : CrawlInv cfg s) : CrawlInv cfg (step cfg oracle s) := by
  obtain ⟨hq, he⟩ := h
  rcases hqueue : s.queue with _ | ⟨p, rest⟩
  · rw [step_queue_nil cfg oracle s hqueue]; exact ⟨hq, he⟩
  · have hp : p ∈ validStrings cfg.alphabet cfg.maxPrefixLength :=
      hq p (by rw [hqueue]; exact List.mem_cons_self p rest)
    have hrest : ∀ q ∈ rest, q ∈ validStrings cfg.alphabet cfg.maxPrefixLength :=
      fun q hq2 => hq q (by rw [hqueue]; exact List.mem_cons_of_mem p hq2)
    by_cases hc : p ∈ s.explored ∨ cfg.maxPrefixLength < p.length
    · rw [step_queue_cons_skip cfg oracle s p rest hqueue hc]
      exact ⟨hrest, he⟩
    · rw [step_queue_cons_go cfg oracle s p rest hqueue hc]
      constructor
      · intro q hq2
        rcases List.mem_append.1 hq2 with hq2 | hq2
        · exact hrest q hq2
        · obtain ⟨⟨c, hcalpha, rfl⟩, _, _, hplen⟩ :=
            mem_expandChildren cfg (insert p s.explored) p (oracle p) q hq2
          obtain ⟨_, _, hpchars⟩ := (mem_validStrings _ _ p).1 hp
          refine (mem_validStrings _ _ _).2 ⟨by simp, by simp; omega, ?_⟩
          intro d hd
          rcases List.mem_append.1 hd with hd | hd
          · exact hpchars d hd
          · rw [List.mem_singleton.1 hd]; exact hcalpha
      · intro q hq2
        rcases Finset.mem_insert.1 hq2 with rfl | hq2
        · exact hp
        · exact he hq2

/-- Lexicographic-style termination measure: unexplored search space
weighted by the maximal per-step queue growth, plus the queue length. -/
def crawlMeasure (cfg : Config) (s : CrawlState) : Nat :=
  (validStrings cfg.alphabet cfg.maxPrefixLength \ s.explored).card *
    (cfg.alphabet.length + 1) + s.queue.length

lemma step_crawlMeasure (cfg : Config) (oracle : List Char → List (List Char))
    (s : CrawlState) (h : CrawlInv cfg s) (hne : s.queue ≠ []) :
    crawlMeasure cfg (step cfg oracle s) < crawlMeasure cfg s := by
  obtain ⟨hq, _⟩ := h
  rcases hqueue : s.queue with _ | ⟨p, rest⟩
  · exact absurd hqueue hne
  · by_cases hc : p ∈ s.explored ∨ cfg.maxPrefixLength < p.length
    · rw [step_queue_cons_skip cfg oracle s p rest hqueue hc]
      unfold crawlMeasure
      simp only [hqueue, List.length_cons]
      omega
    · rw [step_queue_cons_go cfg oracle s p rest hqueue hc]
      push_neg at hc
      have hp : p ∈ validStrings cfg.alphabet cfg.maxPrefixLength \ s.explored :=
        Finset.mem_sdiff.2
          ⟨hq p (by rw [hqueue]; exact List.mem_cons_self p rest), hc.1⟩
      have hcard : (validStrings cfg.alphabet cfg.maxPrefixLength \ insert p s.explored).card =
          (validStrings cfg.alphabet cfg.maxPrefixLength \ s.explored).card - 1 := by
        rw [Finset.sdiff_insert, Finset.card_erase_of_mem hp]
      have hpos : 1 ≤ (validStrings cfg.alphabet cfg.maxPrefixLength \ s.explored).card :=
        Finset.card_pos.2 ⟨p, hp⟩
      have hch := expandChildren_length cfg (insert p s.explored) p (oracle p)
      unfold crawlMeasure
      simp only [hqueue, List.length_cons, List.length_append, hcard]
      obtain ⟨d, hD⟩ :
          ∃ d, (validStrings cfg.alphabet cfg.maxPrefixLength \ s.explored).card = d + 1 :=
        ⟨(validStrings cfg.alphabet cfg.maxPrefixLength \ s.explored).card - 1, by omega⟩
      rw [hD]
      simp only [Nat.add_sub_cancel, Nat.succ_mul]
      generalize d * (cfg.alphabet.length + 1) = Q
      omega

lemma crawl_reaches_empty (cfg : Config) (oracle : List Char → List (List Char)) :
    ∀ (N : Nat) (s : CrawlState), crawlMeasure cfg s ≤ N → CrawlInv cfg s →
      ∃ n, (stepN cfg oracle n s).queue = [] := by
  intro N
  induction N with
  | zero =>
    intro s hm _
    refine ⟨0, ?_⟩
    unfold crawlMeasure at hm
    have : s.queue.length = 0 := by omega
    exact List.length_eq_zero.1 this
  | succ N ih =>
    intro s hm hinv
    by_cases hq : s.queue = []
    · exact ⟨0, hq⟩
    · have hd := step_crawlMeasure cfg oracle s hinv hq
      obtain ⟨n, hn⟩ := ih (step cfg oracle s) (by omega) (step_crawlInv cfg oracle s hinv)
      exact ⟨n + 1, hn⟩

lemma stepN_empty_fix (cfg : Config) (oracle : List Char → List (List Char))
    (s : CrawlState) (h : s.queue = []) : ∀ m, stepN cfg oracle m s = s := by
  intro m
  induction m with
  | zero => rfl
  | succ m ih =>
    show stepN cfg oracle m (step cfg oracle s) = s
    rw [step_queue_nil cfg oracle s h]
    exact ih

lemma stepN_add (cfg : Config) (oracle : List Char → List (List Char)) :
    ∀ (a b : Nat) (s : CrawlState),
      stepN cfg oracle (a + b) s = stepN cfg oracle b (stepN cfg oracle a s) := by
  intro a
  induction a with
  | zero => intro b s; rw [Nat.zero_add]; rfl
  | succ a ih =>
    intro b s
    have h1 : a + 1 + b = (a + b) + 1 := by omega
    rw [h1]
    show stepN cfg oracle (a + b) (step cfg oracle s) = _
    exact ih b (step cfg oracle s)

lemma stepN_crawlInv (cfg : Config) (oracle : List Char → List (List Char)) :
    ∀ (n : Nat) (s : CrawlState), CrawlInv cfg s →
      CrawlInv cfg (stepN cfg oracle n s) := by
  intro n
  induction n with
  | zero => intro s h; exact h
  | succ n ih => intro s h; exact ih (step cfg oracle s) (step_crawlInv cfg oracle s h)

/-- C3: from any state whose queued and explored strings lie in the
finite search space (the seeded initial state in particular), the crawl
terminates — after some number of worker iterations the frontier is
empty and stays empty — and at every point the explored set is bounded
by `Σ alphabet_size^k` for `k = 1..L`. -/
theorem crawl_terminates (cfg : Config) (oracle : List Char → List (List Char))
    (s : CrawlState)
    (hq : ∀ p ∈ s.queue, p ∈ validStrings cfg.alphabet cfg.maxPrefixLength)
    (he : s.explored ⊆ validStrings cfg.alphabet cfg.maxPrefixLength) :
    (∃ n, (stepN cfg oracle n s).queue = [] ∧
      ∀ m, n ≤ m → stepN cfg oracle m s = stepN cfg oracle n s) ∧
    (∀ m, (stepN cfg oracle m s).explored.card ≤
      ∑ k in Finset.range cfg.maxPrefixLength, cfg.alphabet.length ^ (k + 1)) := by
  have hinv : CrawlInv cfg s := ⟨hq, he⟩
  constructor
  · obtain ⟨n, hn⟩ :=
      crawl_reaches_empty cfg oracle (crawlMeasure cfg s) s le_rfl hinv
    refine ⟨n, hn, fun m hm => ?_⟩
    obtain ⟨k, rfl⟩ : ∃ k, m = n + k := ⟨m - n, by omega⟩
    rw [stepN_add]
    exact stepN_empty_fix cfg oracle _ hn k
  · intro m
    have h2 := (stepN_crawlInv cfg oracle m s hinv).2
    exact le_trans (Finset.card_le_card h2)
      (card_validStrings cfg.alphabet cfg.maxPrefixLength)

/-- Witness for C3: a one-letter alphabet with `L = 2`, seeded with
`"a"`, against an always-saturating oracle: the crawl still terminates
with at most `1 + 1 = 2` explored strings. -/
theorem crawl_terminates_witness :
    (∃ n, (stepN ⟨['a'], 1, 2⟩ (fun _ => [['w']]) n (initialState ['a'])).queue = [] ∧
      ∀ m, n ≤ m → stepN ⟨['a'], 1, 2⟩ (fun _ => [['w']]) m (initialState ['a']) =
        stepN ⟨['a'], 1, 2⟩ (fun _ => [['w']]) n (initialState ['a'])) ∧
    (∀ m, (stepN ⟨['a'], 1, 2⟩ (fun _ => [['w']]) m (initialState ['a'])).explored.card ≤
      ∑ k in Finset.range 2, (1 : Nat) ^ (k + 1)) :=
  crawl_terminates ⟨['a'], 1, 2⟩ (fun _ => [['w']]) (initialState ['a'])
    (by decide) (by decide)

/-! ## Claim C7 -/

set_option maxRecDepth 40000 in
/-- C7 counterexample: `main` seeds the queue with all 26 letters, so
the scenario run issues 52 API requests (26 seeds + the 26 children of
`"a"`), not 27 — the run does reach quiescence, but with the seed
queries included in the total. -/
theorem scenario_requests_counterexample :
    scenarioRun.requests ≠ 27 ∧ scenarioRun.queue = [] := by decide

set_option maxRecDepth 40000 in
/-- C7 amended: in the §8 scenario the crawler queries all 26 seed
letters and, because only `"a"` saturates, the 26 two-letter children
of `"a"` — 52 requests in total; no three-letter string is ever
explored, the queue drains and stays drained, and the merged word set
holds all 10 + 26·3 = 88 mock words with no duplicates. -/
theorem scenario_run_amended :
    scenarioRun.queue = [] ∧
    step cfgScenario mockOracle scenarioRun = scenarioRun ∧
    scenarioRun.requests = 52 ∧
    scenarioRun.explored.card = 52 ∧
    (∀ p ∈ scenarioRun.explored, p.length ≤ 2) ∧
    (∀ c ∈ lowercase, [c] ∈ scenarioRun.explored ∧ ['a', c] ∈ scenarioRun.explored) ∧
    scenarioRun.allNames.card = 88 := by decide

/-! ## Claim C10 -/

/-- The bucket carried by either outcome of a `consume` body. -/
def ConsumeStep.bucket : ConsumeStep → Bucket
  | .granted b => b
  | .sleeping _ b => b

lemma consumeStep_inv (b : Bucket) (now : ℚ) (hinv : b.tokens ≤ b.capacity) :
    (consumeStep b now).bucket.tokens ≤ (consumeStep b now).bucket.capacity ∧
    (consumeStep b now).bucket.capacity = b.capacity := by
  simp only [consumeStep]
  split_ifs <;> simp [ConsumeStep.bucket] <;> omega

lemma consumeStep_sleep (b : Bucket) (now : ℚ) (hcap : 0 < b.capacity)
    (t : ℚ) (b1 : Bucket) (h : consumeStep b now = .sleeping t b1) :
    now - b.lastRefill ≤ b.refillPeriod ∧ 0 < t ∧
    b1.capacity = b.capacity ∧ b1.tokens = 0 := by
  simp only [consumeStep] at h
  split_ifs at h with h1 h2
  obtain ⟨ht, hb⟩ := ConsumeStep.sleeping.inj h
  subst hb
  subst ht
  push_neg at h1
  have h4 : (0 : ℚ) ≤ b.refillPeriod - (now - b.lastRefill) := by linarith
  have h5 : (0 : ℚ) < 1/10 := by norm_num
  refine ⟨h1, by linarith, rfl, by omega⟩

lemma consume_spec :
    ∀ (times : List ℚ) (b : Bucket), 0 < b.capacity → b.tokens ≤ b.capacity →
      ∀ r, consume b times = some r →
        r.1 = true ∧ r.2.1.tokens ≤ r.2.1.capacity ∧
        r.2.1.capacity = b.capacity ∧ ∀ t ∈ r.2.2, 0 < t := by
  intro times
  induction times with
  | nil =>
    intro b _ _ r h
    simp [consume] at h
  | cons now rest ih =>
    intro b hcap hinv r h
    simp only [consume] at h
    cases hstep : consumeStep b now with
    | granted b1 =>
      rw [hstep] at h
      simp only [Option.some.injEq] at h
      subst h
      have hi := consumeStep_inv b now hinv
      rw [hstep] at hi
      exact ⟨rfl, hi.1, hi.2, by simp⟩
    | sleeping t b1 =>
      rw [hstep] at h
      simp only [Option.map_eq_some'] at h
      obtain ⟨r1, hr1, rfl⟩ := h
      have hs := consumeStep_sleep b now hcap t b1 hstep
      have hrec := ih b1 (by omega) (by omega) r1 hr1
      refine ⟨hrec.1, hrec.2.1, by rw [hrec.2.2.1, hs.2.2.1], ?_⟩
      intro u hu
      rcases List.mem_cons.1 hu with rfl | hu
      · exact hs.2.1
      · exact hrec.2.2.2 u hu

/-- C10: when `capacity > 0` and `tokens ≤ capacity` hold,
`TokenBucket.consume` preserves `0 ≤ tokens ≤ capacity` (the lower
bound holds by the `Nat` embedding since tokens are only decremented
when positive); every value it returns is `True`; and in the
empty-bucket branch `elapsed ≤ refill_period` necessarily holds —
otherwise the bucket would just have been refilled to full capacity —
so the computed sleep `refill_period − elapsed + 0.1` is strictly
positive, and so is every sleep of the full recursion. -/
theorem token_bucket_consume_safe (b : Bucket) (now : ℚ) (times : List ℚ)
    (hcap : 0 < b.capacity) (hinv : b.tokens ≤ b.capacity) :
    ((consumeStep b now).bucket.tokens ≤ (consumeStep b now).bucket.capacity ∧
      (consumeStep b now).bucket.capacity = b.capacity) ∧
    (∀ t b1, consumeStep b now = .sleeping t b1 →
      now - b.lastRefill ≤ b.refillPeriod ∧ 0 < t) ∧
    (∀ r, consume b times = some r →
      r.1 = true ∧ r.2.1.tokens ≤ r.2.1.capacity ∧ ∀ t ∈ r.2.2, 0 < t) := by
  refine ⟨consumeStep_inv b now hinv, fun t b1 h => ?_, fun r h => ?_⟩
  · have hs := consumeStep_sleep b now hcap t b1 h
    exact ⟨hs.1, hs.2.1⟩
  · have hc := consume_spec times b hcap hinv r h
    exact ⟨hc.1, hc.2.1, hc.2.2.2⟩

/-- Witness for C10: an empty bucket of capacity 100, 5 seconds into
its 60-second period, sleeps a strictly positive 55.1 seconds; the
recursion then returns `True` with a positive sleep trace. -/
theorem token_bucket_consume_safe_witness :
    ((10 : ℚ) - 5 ≤ 60 ∧ (0 : ℚ) < 60 - (10 - 5) + 1/10) ∧
    ((true, (⟨100, 99, 60, 70⟩ : Bucket), [(60 : ℚ) - (10 - 5) + 1/10]).1 = true ∧
      (⟨100, 99, 60, 70⟩ : Bucket).tokens ≤ (⟨100, 99, 60, 70⟩ : Bucket).capacity ∧
      ∀ t ∈ [(60 : ℚ) - (10 - 5) + 1/10], 0 < t) :=
  ⟨(token_bucket_consume_safe ⟨100, 0, 60, 5⟩ 10 [10, 70] (by decide)
      (by decide)).2.1 (60 - (10 - 5) + 1/10) ⟨100, 0, 60, 5⟩
      (by norm_num [consumeStep]),
   (token_bucket_consume_safe ⟨100, 0, 60, 5⟩ 10 [10, 70] (by decide)
      (by decide)).2.2 (true, ⟨100, 99, 60, 70⟩, [60 - (10 - 5) + 1/10])
      (by norm_num [consume, consumeStep])⟩
